import Mathlib

/-!
Shallow embedding of the Horust supervisor front end
(src/main.rs and src/horust/mod.rs) in Lean 4.

The repository ships only `main.rs` and `horust/mod.rs`; the submodules
`formats`, `bus`, `runtime`, `reaper`, `healthcheck` and `signal_handling`
are external collaborators here.  Where a claim depends on them, the
corresponding definition is modelled from the spec (its doc comment says
so) or kept as an abstract parameter that the theorems quantify over.

The filesystem is modelled as a map from a path to the outcome of
`fs::read_dir`: either an I/O error or the list of directory entries,
each entry carrying its final file-name component, whether it is a
regular file, and its textual content.  The TOML deserializer
`Service::from_file` (external, in `formats`) is modelled as a parameter
`parse : String -> Except String Service` applied to the file content.
-/

deriving instance DecidableEq for Except

namespace HorustSpec

/-- Modelled from the spec: the validated service descriptor of
`formats::Service` (missing from src/).  Only the fields the claims
touch are kept: the unique `name`, the `command` line and the
`start_after` dependency list (spec section 3). -/
structure Service where
  name : String
  command : String
  start_after : List String
deriving DecidableEq, Repr

/-- Modelled from the spec: `Service::from_command` (in the missing
`formats` module) builds the single service used for the trailing
positional command: it runs the given command line with no dependency
graph. -/
def Service.from_command (command : String) : Service :=
  { name := command, command := command, start_after := [] }

/-- One entry of a directory as returned by `fs::read_dir`:
its file name (final component), whether `path.is_file()` holds,
and the file content that `Service::from_file` would read. -/
structure DirEntry where
  fileName : String
  isFile : Bool
  content : String
deriving DecidableEq, Repr

/-- The filesystem: what `fs::read_dir` returns for each path. -/
def Fs : Type := String → Except String (List DirEntry)

/-- Engine-level error (`error::HorustError`): an I/O error from reading
the services directory, or a validation error (mapped in by
`from_services_dir` via `Into`). -/
inductive HorustError where
  | io (e : String)
  | validation (e : String)
deriving DecidableEq, Repr

/-- Externally visible effects of the front end, in order:
lines printed to stdout, reads of the services directory, and the
hand-off to the engine (`horust.run()`). -/
inductive Effect where
  | println (s : String)
  | readDir (path : String)
  | runEngine (services : List Service) (services_dir : Option String)
deriving DecidableEq, Repr

/-- `Path::extension()` of Rust, on the final file-name component:
the portion after the last dot, unless there is no dot or the
only role of the dot is to lead a hidden file (last dot at index 0),
in which cases there is no extension. -/
def lastDotIdx : List Char → Option Nat
  | [] => none
  | c :: cs =>
    match lastDotIdx cs with
    | some i => some (i + 1)
    | none => if c = '.' then some 0 else none

def extension (fileName : String) : Option String :=
  match lastDotIdx fileName.data with
  | none => none
  | some 0 => none
  | some i => some (String.mk (fileName.data.drop (i + 1)))

/-- The file stem as the spec uses the word: the file name with its
extension (and the dot) removed; `Path::file_stem()` of Rust.
Modelled from the spec: the source never computes this. -/
def fileStem (fileName : String) : String :=
  match lastDotIdx fileName.data with
  | none => fileName
  | some 0 => fileName
  | some i => String.mk (fileName.data.take i)

/-- `str::ends_with` of Rust: the second string is a suffix of the
first, compared character by character. -/
def endsWithStr (s suffix : String) : Bool :=
  List.isSuffixOf suffix.data s.data

/-- The `is_toml_file` closure of `fetch_services`:
`path.is_file() && path.extension().unwrap_or("").to_str().unwrap().ends_with("toml")`. -/
def is_toml_file (e : DirEntry) : Bool :=
  e.isFile && endsWithStr ((extension e.fileName).getD "") "toml"

/-- The body of the `.map` in `fetch_services`: deserialize one file
(`Service::from_file`, abstract `parse` on the content) and, when the
parsed name is the empty string, replace it by
`file.file_name().unwrap().to_str().unwrap()` — the full file name. -/
def loadService (parse : String → Except String Service) (e : DirEntry) :
    Except String Service :=
  (parse e.content).map fun s =>
    if s.name = "" then { s with name := e.fileName } else s

/-- The service-list pipeline of `fetch_services` on the entries of a
readable directory: keep the `*.toml` regular files, deserialize each,
and keep only the successes.  Rust writes the last step
`.filter(Result::is_ok).map(Result::unwrap)`; it is rendered as
`filterMap Except.toOption`, which keeps exactly the `ok` payloads. -/
def loadServices (parse : String → Except String Service)
    (entries : List DirEntry) : List Service :=
  ((entries.filter is_toml_file).map (loadService parse)).filterMap
    Except.toOption

/-- The notice printed when no service was found. -/
def noServicesMsg (path : String) : String :=
  "Horust: No services found in: " ++ path ++ "."

/-- `fetch_services`: propagate a `read_dir` failure as an error;
otherwise collect the successfully deserialized services, printing a
notice when none was found. -/
def fetch_services (parse : String → Except String Service) (fs : Fs)
    (path : String) : Except HorustError (List Service) × List Effect :=
  match fs path with
  | .error e => (.error (.io e), [.readDir path])
  | .ok entries =>
    let services := loadServices parse entries
    if services.isEmpty then
      (.ok services, [.readDir path, .println (noServicesMsg path)])
    else
      (.ok services, [.readDir path])

/-- The `Horust` struct: the loaded services and the optional
services directory. -/
structure Horust where
  services : List Service
  services_dir : Option String
deriving DecidableEq, Repr

/-- `Horust::new`. -/
def Horust.new (services : List Service) (services_dir : Option String) :
    Horust :=
  { services := services, services_dir := services_dir }

/-- `Horust::from_command`: a single service built from the command
line, with no services directory. -/
def Horust.from_command (command : String) : Horust :=
  Horust.new [Service.from_command command] none

/-- `Horust::from_services_dir`: fetch the services (propagating the
I/O error), validate them (`formats::validate`, external, kept
abstract), and build the instance remembering the directory. -/
def Horust.from_services_dir
    (parse : String → Except String Service)
    (validate : List Service → Except String (List Service))
    (fs : Fs) (path : String) : Except HorustError Horust × List Effect :=
  match fetch_services parse fs path with
  | (.error e, out) => (.error e, out)
  | (.ok services, out) =>
    match validate services with
    | .error e => (.error (.validation e), out)
    | .ok validated => (.ok (Horust.new validated (some path)), out)

/-- The three workers spawned by `Horust::run`. -/
inductive Worker where
  | runtime
  | reaper
  | healthcheck
deriving DecidableEq, Repr

/-- One step of `Horust::run`, in program order: the `prctl` call
setting `PR_SET_CHILD_SUBREAPER`, `signal_handling::init()`,
`Bus::new()`, a `dispatcher.join_bus()` call handing an endpoint to a
worker, the spawn of a worker thread (with the clone of the services
list it receives, when it receives one), and `dispatcher.run()`. -/
inductive RunAction where
  | setChildSubreaper
  | initSignalHandling
  | newBus
  | joinBus (w : Worker)
  | spawnWorker (w : Worker) (services : Option (List Service))
  | dispatcherRun
deriving DecidableEq, Repr

/-- A `RunAction` that creates OS processes or threads: spawning a
worker thread, or running the dispatcher (which drives the workers).
Before any of these, no child process can exist. -/
def RunAction.createsChild : RunAction → Bool
  | .spawnWorker _ _ => true
  | .dispatcherRun => true
  | _ => false

/-- `Horust::run`, as the trace of its effects in program order,
together with the (unchanged) `Horust` value after the call.
Each `join_bus()` argument is evaluated just before the corresponding
`spawn`; `runtime` and `healthcheck` receive `self.services.clone()`,
the reaper only its endpoint. -/
def Horust.run (h : Horust) : Horust × List RunAction :=
  (h,
    [.setChildSubreaper,
     .initSignalHandling,
     .newBus,
     .joinBus .runtime, .spawnWorker .runtime (some h.services),
     .joinBus .reaper, .spawnWorker .reaper none,
     .joinBus .healthcheck, .spawnWorker .healthcheck (some h.services),
     .dispatcherRun])

/-- The parsed command line (`struct Opts`). -/
structure Opts where
  config : String
  sample_service : Bool
  services_path : String
  command : List String
deriving DecidableEq, Repr

/-- The fold in `main` building the command string:
`fold(String::new(), |acc, w| format!("{} {}", acc, w))`. -/
def foldWords (ws : List String) : String :=
  ws.foldl (fun acc w => acc ++ " " ++ w) ""

/-- The space-join of the argument words as the spec phrase
"the space-joined argument words" reads.  Modelled from the spec, to be
compared with `foldWords` from the source. -/
def spaceJoin (ws : List String) : String :=
  String.intercalate " " ws

/-- `main` (after logger setup): print the sample service and return on
`--sample-service`; otherwise build the `Horust` instance from the
positional command when present, or from the services directory, and
run it.  `sample` stands for `horust::get_sample_service()` (external). -/
def main (parse : String → Except String Service)
    (validate : List Service → Except String (List Service))
    (sample : String) (fs : Fs) (opts : Opts) :
    Except HorustError Unit × List Effect :=
  if opts.sample_service then
    (.ok (), [.println sample])
  else if !opts.command.isEmpty then
    let h := Horust.from_command (foldWords opts.command)
    (.ok (), [.runEngine h.services h.services_dir])
  else
    match Horust.from_services_dir parse validate fs opts.services_path with
    | (.error e, out) => (.error e, out)
    | (.ok h, out) => (.ok (), out ++ [.runEngine h.services h.services_dir])

/-! Concrete fixtures used by witnesses and counterexamples. -/

/-- A well-formed service, the parse result of content `"good"`. -/
def svcA : Service := { name := "a", command := "run-a", start_after := [] }

/-- A parse result whose `name` field is the empty string. -/
def svcNoName : Service := { name := "", command := "run", start_after := [] }

/-- A concrete deserializer: `"good"` and `"noname"` parse, everything
else is malformed TOML. -/
def parse0 : String → Except String Service := fun content =>
  if content = "good" then .ok svcA
  else if content = "noname" then .ok svcNoName
  else .error "invalid TOML"

/-- A concrete validator that accepts every service list unchanged. -/
def validate0 : List Service → Except String (List Service) := fun ss => .ok ss

def entryGood : DirEntry :=
  { fileName := "alpha.toml", isFile := true, content := "good" }

def entryBad : DirEntry :=
  { fileName := "bad.toml", isFile := true, content := "broken" }

def entryNoName : DirEntry :=
  { fileName := "foo.toml", isFile := true, content := "noname" }

/-- A filesystem with one readable services directory holding a
well-formed and a malformed descriptor. -/
def fs0 : Fs := fun path =>
  if path = "/etc/horust/services" then .ok [entryGood, entryBad]
  else .error "no such directory"

/-- A filesystem whose services directory holds one descriptor with an
empty `name` field. -/
def fsNoName : Fs := fun path =>
  if path = "/etc/horust/services" then .ok [entryNoName]
  else .error "no such directory"

def optsSample : Opts :=
  { config := "/etc/horust/horust.toml", sample_service := true,
    services_path := "/etc/horust/services", command := ["echo", "hi"] }

def optsCmd : Opts :=
  { config := "/etc/horust/horust.toml", sample_service := false,
    services_path := "/etc/horust/services", command := ["echo", "hi"] }

def optsDir : Opts :=
  { config := "/etc/horust/horust.toml", sample_service := false,
    services_path := "/etc/horust/services", command := [] }

/-! Theorems, one per claim. -/

/-- C5: when `--sample-service` is set, `main` prints the sample service
to stdout and returns `Ok`, without constructing a `Horust` instance,
reading the services directory, or running any command, regardless of
the other options: the effect trace is exactly the one `println`. -/
theorem sample_service_short_circuits
    (parse : String → Except String Service)
    (validate : List Service → Except String (List Service))
    (sample : String) (fs : Fs) (opts : Opts)
    (hs : opts.sample_service = true) :
    main parse validate sample fs opts = (.ok (), [.println sample]) := by
  simp [main, hs]

/-- C5 witness: the theorem at a concrete option set. -/
theorem sample_service_short_circuits_witness :
    main parse0 validate0 "SAMPLE" fs0 optsSample = (.ok (), [.println "SAMPLE"]) :=
  sample_service_short_circuits parse0 validate0 "SAMPLE" fs0 optsSample rfl

/-- C10: `Horust::run` leaves the `Horust` value unchanged (services
list and services directory included), and the runtime and healthcheck
workers each receive a clone of the services list. -/
theorem run_preserves_horust (h : Horust) :
    (h.run).1 = h ∧
    RunAction.spawnWorker .runtime (some h.services) ∈ (h.run).2 ∧
    RunAction.spawnWorker .healthcheck (some h.services) ∈ (h.run).2 := by
  refine ⟨rfl, ?_, ?_⟩ <;> simp [Horust.run]

/-- C8: `fetch_services` fails exactly when `read_dir` on the services
path fails; on a readable directory it returns `Ok` with the
successfully loaded services (possibly none), and when none was found
it prints a notice instead of failing. -/
theorem fetch_services_err_iff_unreadable
    (parse : String → Except String Service) (fs : Fs) (path : String) :
    ((fetch_services parse fs path).1.isOk = (fs path).isOk) ∧
    (∀ entries, fs path = .ok entries →
      (fetch_services parse fs path).1 = .ok (loadServices parse entries) ∧
      (loadServices parse entries = [] →
        Effect.println (noServicesMsg path) ∈ (fetch_services parse fs path).2)) := by
  constructor
  · cases hfs : fs path with
    | error e => simp [fetch_services, hfs, Except.isOk, Except.toBool]
    | ok entries =>
      by_cases hem : (loadServices parse entries).isEmpty <;>
        simp [fetch_services, hfs, hem, Except.isOk, Except.toBool]
  · intro entries hfs
    by_cases hem : (loadServices parse entries).isEmpty
    · refine ⟨by simp [fetch_services, hfs, hem], fun _ => ?_⟩
      simp [fetch_services, hfs, hem]
    · refine ⟨by simp [fetch_services, hfs, hem], fun hnil => ?_⟩
      rw [hnil] at hem
      simp at hem

/-- C8 witness: the theorem at the concrete filesystem `fs0`. -/
theorem fetch_services_err_iff_unreadable_witness :
    (((fetch_services parse0 fs0 "/etc/horust/services").1.isOk =
        (fs0 "/etc/horust/services").isOk) ∧
      (∀ entries, fs0 "/etc/horust/services" = .ok entries →
        (fetch_services parse0 fs0 "/etc/horust/services").1 =
          .ok (loadServices parse0 entries) ∧
        (loadServices parse0 entries = [] →
          Effect.println (noServicesMsg "/etc/horust/services") ∈
            (fetch_services parse0 fs0 "/etc/horust/services").2))) :=
  fetch_services_err_iff_unreadable parse0 fs0 "/etc/horust/services"

/-- C3 counterexample: a descriptor file `foo.toml` whose parsed name is
empty is loaded with name `"foo.toml"` — the full file name produced by
`file.file_name()` — and not the file stem `"foo"` the claim (and the
spec table) state. -/
theorem empty_name_gets_full_file_name_cx :
    (fetch_services parse0 fsNoName "/etc/horust/services").1 =
      .ok [{ name := "foo.toml", command := "run", start_after := [] }] ∧
    fileStem "foo.toml" = "foo" ∧
    ("foo.toml" : String) ≠ fileStem "foo.toml" := by
  refine ⟨by decide, by decide, by decide⟩

/-- C3 amended: for every descriptor whose parsed service name is the
empty string, the loaded name defaults to the full file name (extension
included), not the file stem. -/
theorem empty_name_defaults_to_file_name
    (parse : String → Except String Service) (e : DirEntry) (s : Service)
    (hp : parse e.content = .ok s) (hn : s.name = "") :
    loadService parse e = .ok { s with name := e.fileName } := by
  simp [loadService, hp, hn, Except.map]

/-- C3 witness: the amended theorem at the concrete entry `foo.toml`. -/
theorem empty_name_defaults_to_file_name_witness :
    loadService parse0 entryNoName = .ok { svcNoName with name := "foo.toml" } :=
  empty_name_defaults_to_file_name parse0 entryNoName svcNoName (by decide) rfl

/-- C1 counterexample: the services directory holds a well-formed
descriptor (`alpha.toml`) and a malformed one (`bad.toml`, a regular
`*.toml` file whose deserialization fails), yet `fetch_services`
returns `Ok` with only the well-formed service — it omits the malformed
descriptor while keeping the rest, and no `ConfigError` is surfaced. -/
theorem fetch_services_keeps_rest_on_malformed_cx :
    is_toml_file entryBad = true ∧
    (parse0 entryBad.content).isOk = false ∧
    (fetch_services parse0 fs0 "/etc/horust/services").1 = .ok [svcA] := by
  refine ⟨by decide, by decide, by decide⟩

/-- C1 amended: a descriptor that fails to deserialize is silently
dropped: `fetch_services` still returns `Ok`, and every descriptor that
does deserialize is kept in the returned list.  Only an unreadable
directory is surfaced as an error. -/
theorem malformed_descriptors_silently_dropped
    (parse : String → Except String Service) (fs : Fs) (path : String)
    (entries : List DirEntry) (e : DirEntry) (s : Service)
    (hfs : fs path = .ok entries)
    (he : e ∈ entries) (ht : is_toml_file e = true)
    (hs : loadService parse e = .ok s) :
    ∃ services, (fetch_services parse fs path).1 = .ok services ∧
      s ∈ services := by
  refine ⟨loadServices parse entries, ?_, ?_⟩
  · by_cases hem : (loadServices parse entries).isEmpty <;>
      simp [fetch_services, hfs, hem]
  · unfold loadServices
    refine List.mem_filterMap.mpr ⟨loadService parse e, ?_, ?_⟩
    · exact List.mem_map.mpr ⟨e, List.mem_filter.mpr ⟨he, ht⟩, rfl⟩
    · rw [hs]; rfl

/-- C1 witness: the amended theorem on the directory that also contains
the malformed `bad.toml`: the well-formed service survives. -/
theorem malformed_descriptors_silently_dropped_witness :
    ∃ services,
      (fetch_services parse0 fs0 "/etc/horust/services").1 = .ok services ∧
      svcA ∈ services :=
  malformed_descriptors_silently_dropped parse0 fs0 "/etc/horust/services"
    [entryGood, entryBad] entryGood svcA (by decide) (by decide) (by decide)
    (by decide)

/-- C9: a directory entry is considered exactly when it is a regular
file whose extension ends with `"toml"`: the filter is invariant under
pre-restricting to such entries, an entry passes iff it is a file with
an extension ending in `"toml"`, and concretely an `.xtoml` file is
accepted while directories, extension-less files and `.txt` files are
ignored. -/
theorem toml_filter_characterization :
    (∀ e : DirEntry, is_toml_file e = true ↔
      e.isFile = true ∧
      ∃ ext, extension e.fileName = some ext ∧ endsWithStr ext "toml" = true) ∧
    (∀ (parse : String → Except String Service) (entries : List DirEntry),
      loadServices parse entries =
        loadServices parse (entries.filter is_toml_file)) ∧
    is_toml_file { fileName := "a.xtoml", isFile := true, content := "" } = true ∧
    is_toml_file { fileName := "sub.toml", isFile := false, content := "" } = false ∧
    is_toml_file { fileName := "noext", isFile := true, content := "" } = false ∧
    is_toml_file { fileName := "a.txt", isFile := true, content := "" } = false := by
  refine ⟨?_, ?_, by decide, by decide, by decide, by decide⟩
  · intro e
    unfold is_toml_file
    cases hx : extension e.fileName with
    | none => simp [hx]; intro _; decide
    | some ext => simp [hx]
  · intro parse entries
    unfold loadServices
    rw [List.filter_filter]
    simp

/-- Folding the word list with `format!("{} {}", acc, w)` from any
accumulator prepends the accumulator to the fold from the empty
string. -/
lemma foldl_words_shift (ws : List String) (acc : String) :
    ws.foldl (fun a w => a ++ " " ++ w) acc =
      acc ++ ws.foldl (fun a w => a ++ " " ++ w) "" := by
  induction ws generalizing acc with
  | nil => simp
  | cons w ws ih =>
    simp only [List.foldl_cons]
    rw [ih (acc ++ " " ++ w), ih ("" ++ " " ++ w)]
    simp [String.append_assoc]

/-- The accumulator loop of `String.intercalate " "` in terms of
`foldWords`. -/
lemma intercalate_go_spec (as : List String) (acc : String) :
    String.intercalate.go acc " " as = acc ++ foldWords as := by
  induction as generalizing acc with
  | nil => simp [String.intercalate.go, foldWords]
  | cons a as ih =>
    rw [String.intercalate.go, ih]
    unfold foldWords
    simp only [List.foldl_cons, String.empty_append]
    rw [foldl_words_shift as (" " ++ a)]
    simp [String.append_assoc]

/-- On a non-empty word list, the fold of `main` yields a single
leading space followed by the space-join of the words. -/
lemma foldWords_eq_space_join (ws : List String) (h : ws ≠ []) :
    foldWords ws = " " ++ spaceJoin ws := by
  cases ws with
  | nil => exact absurd rfl h
  | cons w ws =>
    have h1 : spaceJoin (w :: ws) = String.intercalate.go w " " ws := rfl
    rw [h1, intercalate_go_spec]
    unfold foldWords
    simp only [List.foldl_cons, String.empty_append]
    rw [foldl_words_shift ws (" " ++ w)]
    simp [String.append_assoc, foldWords]

/-- C4 counterexample: with the positional command `["echo", "hi"]`,
the command string handed to `from_command` is `" echo hi"` (the fold
leaves a leading space), not the space-join `"echo hi"`; the trace the
claim predicts is not the trace `main` produces. -/
theorem command_not_space_joined_cx :
    (main parse0 validate0 "SAMPLE" fs0 optsCmd).2 ≠
      [Effect.runEngine
        (Horust.from_command (spaceJoin ["echo", "hi"])).services
        (Horust.from_command (spaceJoin ["echo", "hi"])).services_dir] ∧
    foldWords ["echo", "hi"] = " echo hi" ∧
    spaceJoin ["echo", "hi"] = "echo hi" := by
  refine ⟨by decide, by decide, by decide⟩

/-- C4 amended: with a non-empty positional command, `main` builds the
instance via `from_command` on the fold of the words — a leading space
followed by the space-joined words — yielding exactly one service with
no `start_after` dependencies and no services directory, and the
services path is never read. -/
theorem command_mode_runs_single_service
    (parse : String → Except String Service)
    (validate : List Service → Except String (List Service))
    (sample : String) (fs : Fs) (opts : Opts)
    (hs : opts.sample_service = false) (hc : opts.command ≠ []) :
    main parse validate sample fs opts =
      (.ok (), [.runEngine [Service.from_command (foldWords opts.command)] none]) ∧
    foldWords opts.command = " " ++ spaceJoin opts.command ∧
    (Service.from_command (foldWords opts.command)).start_after = [] ∧
    ∀ p, Effect.readDir p ∉ (main parse validate sample fs opts).2 := by
  have hcE : opts.command.isEmpty = false := by
    cases hx : opts.command with
    | nil => exact absurd hx hc
    | cons a as => rfl
  have hmain : main parse validate sample fs opts =
      (.ok (), [.runEngine [Service.from_command (foldWords opts.command)] none]) := by
    simp [main, hs, hcE, Horust.from_command, Horust.new]
  refine ⟨hmain, foldWords_eq_space_join _ hc, rfl, ?_⟩
  intro p
  rw [hmain]
  simp

/-- C4 witness: the amended theorem at the concrete command
`["echo", "hi"]`. -/
theorem command_mode_runs_single_service_witness :
    (main parse0 validate0 "SAMPLE" fs0 optsCmd =
      (.ok (), [.runEngine
        [Service.from_command (foldWords optsCmd.command)] none]) ∧
      foldWords optsCmd.command = " " ++ spaceJoin optsCmd.command ∧
      (Service.from_command (foldWords optsCmd.command)).start_after = [] ∧
      ∀ p, Effect.readDir p ∉ (main parse0 validate0 "SAMPLE" fs0 optsCmd).2) :=
  command_mode_runs_single_service parse0 validate0 "SAMPLE" fs0 optsCmd rfl
    (by decide)

/-- C2: in services-directory mode (no `--sample-service`, empty
positional command), `main` returns an error exactly when reading the
services directory fails or validation of the loaded services fails;
and whenever `from_services_dir` succeeds, the engine runs on the
resulting instance and `main` returns `Ok`. -/
theorem services_dir_mode_error_iff
    (parse : String → Except String Service)
    (validate : List Service → Except String (List Service))
    (sample : String) (fs : Fs) (opts : Opts)
    (hs : opts.sample_service = false) (hc : opts.command = []) :
    (((main parse validate sample fs opts).1.isOk = false) ↔
      ((fs opts.services_path).isOk = false ∨
        ∃ entries, fs opts.services_path = .ok entries ∧
          (validate (loadServices parse entries)).isOk = false)) ∧
    (∀ h out,
      Horust.from_services_dir parse validate fs opts.services_path =
        (.ok h, out) →
      (main parse validate sample fs opts).1 = .ok () ∧
      Effect.runEngine h.services h.services_dir ∈
        (main parse validate sample fs opts).2) := by
  have hcE : opts.command.isEmpty = true := by rw [hc]; rfl
  cases hfs : fs opts.services_path with
  | error e =>
    have hmain : main parse validate sample fs opts =
        (.error (.io e), [.readDir opts.services_path]) := by
      simp [main, hs, hcE, Horust.from_services_dir, fetch_services, hfs]
    constructor
    · rw [hmain]
      simp [Except.isOk, Except.toBool, hfs]
    · intro h out hdir
      simp [Horust.from_services_dir, fetch_services, hfs] at hdir
  | ok entries =>
    by_cases hem : (loadServices parse entries).isEmpty <;>
    cases hv : validate (loadServices parse entries) with
    | error e =>
      have hmain : (main parse validate sample fs opts).1 =
          .error (.validation e) := by
        simp [main, hs, hcE, Horust.from_services_dir, fetch_services, hfs,
          hem, hv]
      constructor
      · rw [hmain]
        refine iff_of_true rfl (Or.inr ⟨entries, rfl, ?_⟩)
        rw [hv]
        rfl
      · intro h out hdir
        simp [Horust.from_services_dir, fetch_services, hfs, hem, hv] at hdir
    | ok validated =>
      have hmain1 : (main parse validate sample fs opts).1 = .ok () := by
        simp [main, hs, hcE, Horust.from_services_dir, fetch_services, hfs,
          hem, hv]
      constructor
      · rw [hmain1]
        refine iff_of_false (by simp [Except.isOk, Except.toBool]) ?_
        rintro (hl | ⟨entries2, hfs2, hv2⟩)
        · simp [Except.isOk, Except.toBool] at hl
        · cases hfs2
          rw [hv] at hv2
          simp [Except.isOk, Except.toBool] at hv2
      · intro h out hdir
        have hh : h = Horust.new validated (some opts.services_path) := by
          simp [Horust.from_services_dir, fetch_services, hfs, hem, hv]
            at hdir
          exact hdir.1.symm
        subst hh
        refine ⟨hmain1, ?_⟩
        simp [main, hs, hcE, Horust.from_services_dir, fetch_services, hfs,
          hem, hv]

/-- C2 witness: the theorem at the concrete filesystem `fs0` in
services-directory mode. -/
theorem services_dir_mode_error_iff_witness :
    ((((main parse0 validate0 "SAMPLE" fs0 optsDir).1.isOk = false) ↔
      ((fs0 optsDir.services_path).isOk = false ∨
        ∃ entries, fs0 optsDir.services_path = .ok entries ∧
          (validate0 (loadServices parse0 entries)).isOk = false)) ∧
    (∀ h out,
      Horust.from_services_dir parse0 validate0 fs0 optsDir.services_path =
        (.ok h, out) →
      (main parse0 validate0 "SAMPLE" fs0 optsDir).1 = .ok () ∧
      Effect.runEngine h.services h.services_dir ∈
        (main parse0 validate0 "SAMPLE" fs0 optsDir).2)) :=
  services_dir_mode_error_iff parse0 validate0 "SAMPLE" fs0 optsDir rfl rfl

/-- The length of the `Horust::run` trace. -/
lemma run_trace_length (h : Horust) : (h.run).2.length = 10 := rfl

/-- C6: in the `Horust::run` trace, the `PR_SET_CHILD_SUBREAPER`
`prctl` is the first action and `signal_handling::init` the second, and
every action that can create a child process or thread (worker spawns,
dispatcher run) occurs strictly later; hence no child can exist before
the subreaper attribute is set and signal handling installed. -/
theorem subreaper_and_signals_before_children (h : Horust) :
    (h.run).2.get? 0 = some .setChildSubreaper ∧
    (h.run).2.get? 1 = some .initSignalHandling ∧
    ∀ j b, (h.run).2.get? j = some b → b.createsChild = true → 1 < j := by
  refine ⟨rfl, rfl, ?_⟩
  intro j b hj hb
  obtain ⟨hlt, -⟩ := List.get?_eq_some.mp hj
  rw [run_trace_length] at hlt
  interval_cases j
  · simp [Horust.run] at hj
    subst hj
    exact absurd hb (by decide)
  · simp [Horust.run] at hj
    subst hj
    exact absurd hb (by decide)
  all_goals omega

/-- C6 witness: the theorem at a concrete empty instance. -/
theorem subreaper_and_signals_before_children_witness :
    ((Horust.new [] none).run).2.get? 0 = some .setChildSubreaper ∧
    ((Horust.new [] none).run).2.get? 1 = some .initSignalHandling ∧
    ∀ j b, ((Horust.new [] none).run).2.get? j = some b →
      b.createsChild = true → 1 < j :=
  subreaper_and_signals_before_children (Horust.new [] none)

/-- C7: every worker joins the bus in the `Horust::run` trace, and
every `join_bus` call occurs strictly before `dispatcher.run()`; no
endpoint is joined once dispatching has begun. -/
theorem join_bus_before_dispatch (h : Horust) :
    (∀ w : Worker, RunAction.joinBus w ∈ (h.run).2) ∧
    ∀ i j w, (h.run).2.get? i = some (.joinBus w) →
      (h.run).2.get? j = some .dispatcherRun → i < j := by
  constructor
  · intro w
    cases w <;> simp [Horust.run]
  · intro i j w hi hj
    obtain ⟨hilen, -⟩ := List.get?_eq_some.mp hi
    rw [run_trace_length] at hilen
    obtain ⟨hjlen, -⟩ := List.get?_eq_some.mp hj
    rw [run_trace_length] at hjlen
    have hj9 : j = 9 := by
      interval_cases j <;> first | rfl | simp [Horust.run] at hj
    subst hj9
    interval_cases i <;> first | omega | simp [Horust.run] at hi

/-- C7 witness: the theorem at a concrete empty instance. -/
theorem join_bus_before_dispatch_witness :
    (∀ w : Worker, RunAction.joinBus w ∈ ((Horust.new [] none).run).2) ∧
    ∀ i j w, ((Horust.new [] none).run).2.get? i = some (.joinBus w) →
      ((Horust.new [] none).run).2.get? j = some .dispatcherRun → i < j :=
  join_bus_before_dispatch (Horust.new [] none)

end HorustSpec
